import Mathlib

/-!
Verification development for `deeppavlov/core/commands/train.py`.

The file shallow-embeds the three core functions of the module:

* `_test_model`   →  `DPTrain.testModel`
* `_train_batches` →  `DPTrain.trainBatchesRun` (built from `batchStep`,
  `validStep`, `epochStep`, `runLoop`)
* `train_experimental`'s strategy dispatch → `DPTrain.trainExperimental`

Modelling decisions, faithful to the source:

* The trainable model is an abstract state type `M`.  The collaborator
  capabilities are explicit functions: `trainOnBatch : M → Batch → M` and a
  *stateful* `inferS : M → List X → M × List Y` (a Python method call on a
  mutable object may in principle change the object, so the state is
  threaded; purity of `infer` is a hypothesis where a claim relies on it).
* Scores are rationals `ℚ` (metric values); the Python sentinels
  `float('-inf')` / `float('inf')` are the extra points of `PyExt`.
* Wall-clock fields (`time_spent`) are omitted: real time is not statable.
* The dataset is represented by the batch sequences it yields:
  `trainGen batchSize epochIdx` for the (possibly reshuffled) train split at
  each epoch, and `validGen batchSize` for the `valid` split, which is drawn
  with `shuffle=False` and is therefore a fixed list per batch size.
* `KeyboardInterrupt` is modelled as an external signal observed at the top
  of the `while` loop (`interruptAt`); the loop converts it into a normal
  `stopped` outcome (the `except KeyboardInterrupt` handler re-raises
  nothing), after which the final-save step still runs.
* An `IndexError` from `metrics[0]` on an empty metric list is *not* caught
  by the source (`except` only catches `KeyboardInterrupt`), so it escapes
  as the `crashed` outcome and skips the final save.
* The loop is driven by fuel counting `while`-iterations (epochs); with
  `epochs == 0` and no patience the Python loop is genuinely unbounded, so
  `running` reports exhausted fuel.
-/

namespace DPTrain

/-- A batch as produced by `dataset.batch_generator`: inputs and labels. -/
abbrev Batch (X Y : Type) := List X × List Y

/-- Named metric functions, `metrics_functions` in the source: ordered list of
`(name, f)` with `f(y_true, y_predicted)` a score. -/
abbrev MetricFns (Y : Type) := List (String × (List Y → List Y → ℚ))

/-- Python float values relevant to the loop: finite scores (ℚ) plus the
`float('-inf')` / `float('inf')` sentinels used for the initial `best`. -/
inductive PyExt where
  | negInf
  | posInf
  | fin (q : ℚ)
deriving DecidableEq

/-- Strict `<` on `PyExt`, the order Python's float comparison gives on
finite values and the infinities. -/
def pyLt : PyExt → PyExt → Bool
  | .fin a, .fin b => decide (a < b)
  | .negInf, .negInf => false
  | .negInf, _ => true
  | _, .negInf => false
  | .posInf, _ => false
  | _, .posInf => true

/-- The fully merged training configuration (the result of
`dict(default_train_config, **train_config)` in `_train_batches`). -/
structure TrainConfig where
  epochs : Nat
  batchSize : Int
  metricOptimization : String
  validationPatience : Nat
  valEveryNEpochs : Nat
  logEveryNBatches : Nat
  validateBest : Bool
  testBest : Bool
deriving DecidableEq

/-- The caller-supplied `train` section of the user configuration: each
recognized key either present or absent. -/
structure UserTrainConfig where
  epochs : Option Nat := none
  batchSize : Option Int := none
  metricOptimization : Option String := none
  validationPatience : Option Nat := none
  valEveryNEpochs : Option Nat := none
  logEveryNBatches : Option Nat := none
  validateBest : Option Bool := none
  testBest : Option Bool := none
deriving DecidableEq

/-- `train_config = dict(default_train_config, **train_config)`
(train.py lines 173-189): caller values override the defaults field by
field. -/
def mergeDefaults (u : UserTrainConfig) : TrainConfig :=
  { epochs := u.epochs.getD 0
    batchSize := u.batchSize.getD 1
    metricOptimization := u.metricOptimization.getD "maximize"
    validationPatience := u.validationPatience.getD 5
    valEveryNEpochs := u.valEveryNEpochs.getD 0
    logEveryNBatches := u.logEveryNBatches.getD 0
    validateBest := u.validateBest.getD true
    testBest := u.testBest.getD true }

/-- The improvement predicate and initial `best` derived from
`metric_optimization` (train.py lines 191-200); `none` models the
`ConfigError` raised for any other value. -/
def setupOpt (s : String) : Option ((ℚ → PyExt → Bool) × PyExt) :=
  if s = "maximize" then some (fun sc b => pyLt b (.fin sc), .negInf)
  else if s = "minimize" then some (fun sc b => pyLt (.fin sc) b, .posInf)
  else none

/-- Evaluation report assembled by `_test_model` (train.py lines 162-166);
`time_spent` is wall-clock and omitted from the model. -/
structure EvalReport where
  examplesSeen : Nat
  metrics : List (String × ℚ)
deriving DecidableEq

/-- The environment a run executes in: the initial model, the collaborator
capabilities, the batch sequences the dataset yields, and an optional
external interrupt (the epoch count at whose start `KeyboardInterrupt`
fires). -/
structure Env (X Y M : Type) where
  m0 : M
  inferS : M → List X → M × List Y
  trainOnBatch : M → Batch X Y → M
  trainGen : Int → Nat → List (Batch X Y)
  validGen : Int → List (Batch X Y)
  interruptAt : Option Nat := none

/-- One iteration of `_test_model`'s accumulation loop (train.py lines
155-158): call `model.infer` once on the batch inputs and extend the
accumulated true labels and predictions by concatenation; the model state is
threaded through the `infer` call. -/
def testAccF {X Y M : Type} (inferS : M → List X → M × List Y) :
    M × List Y × List Y → Batch X Y → M × List Y × List Y :=
  fun acc b =>
    let p := inferS acc.1 b.1
    (p.1, acc.2.1 ++ b.2, acc.2.2 ++ p.2)

/-- Embedding of `_test_model` (train.py lines 148-167): iterate the split's
batches with `testAccF` (shuffle is disabled there, so the batch list is a
fixed sequence), then compute every configured metric once over the full
accumulated true/predicted sequences and report
`examples_seen = len(val_y_true)`. -/
def testModel {X Y M : Type} (inferS : M → List X → M × List Y)
    (fns : MetricFns Y) (batches : List (Batch X Y)) (m : M) :
    M × EvalReport :=
  let acc := batches.foldl (testAccF inferS) (m, ([] : List Y), ([] : List Y))
  (acc.1,
   { examplesSeen := acc.2.1.length
     metrics := fns.map (fun nf => (nf.1, nf.2 acc.2.1 acc.2.2)) })

/-- Interim `{train: {...}}` report (train.py lines 225-232); the window
contents the metrics were computed over are recorded alongside the computed
metric values. -/
structure TrainReport (Y : Type) where
  epochsDone : Nat
  batchesSeen : Nat
  examplesSeen : Nat
  yTrueWindow : List Y
  yPredWindow : List Y
  metrics : List (String × ℚ)
deriving DecidableEq

/-- `{valid: {...}}` report (train.py lines 262-267). -/
structure ValidReport where
  base : EvalReport
  impatience : Nat
  patienceLimit : Option Nat
deriving DecidableEq

/-- A structured JSON-line report emitted by the training loop. -/
inductive Report (Y : Type) where
  | train (r : TrainReport Y)
  | valid (r : ValidReport)
deriving DecidableEq

/-- The mutable locals of `_train_batches` (train.py lines 202-210) plus the
emitted reports and an instrumentation counter of `model.save()` calls. -/
structure LoopState (Y M : Type) where
  model : M
  i : Nat
  epochs : Nat
  examples : Nat
  saved : Bool
  saves : Nat
  patience : Nat
  best : PyExt
  trainYTrue : List Y
  trainYPred : List Y
  reports : List (Report Y)
deriving DecidableEq

/-- One iteration of the inner `for batch in ...` loop (train.py lines
213-239): optional interim inference and accumulation, `train_on_batch`,
counter updates, and the `log_every_n_batches` flush that emits a train
report and resets the window accumulators. -/
def batchStep {X Y M : Type} (cfg : TrainConfig) (fns : MetricFns Y)
    (env : Env X Y M) (st : LoopState Y M) (b : Batch X Y) : LoopState Y M :=
  let st1 :=
    if 0 < cfg.logEveryNBatches then
      let p := env.inferS st.model b.1
      { st with model := p.1
                trainYTrue := st.trainYTrue ++ b.2
                trainYPred := st.trainYPred ++ p.2 }
    else st
  let st2 := { st1 with model := env.trainOnBatch st1.model b }
  let st3 := { st2 with i := st2.i + 1, examples := st2.examples + b.1.length }
  if 0 < cfg.logEveryNBatches ∧ st3.i % cfg.logEveryNBatches = 0 then
    let r : TrainReport Y :=
      { epochsDone := st3.epochs
        batchesSeen := st3.i
        examplesSeen := st3.examples
        yTrueWindow := st3.trainYTrue
        yPredWindow := st3.trainYPred
        metrics := fns.map (fun nf => (nf.1, nf.2 st3.trainYTrue st3.trainYPred)) }
    { st3 with reports := st3.reports ++ [Report.train r]
               trainYTrue := []
               trainYPred := [] }
  else st3

/-- The uncaught exception the loop body can raise: `metrics[0]` on an empty
metric list (train.py line 248). -/
inductive LoopErr where
  | indexError
deriving DecidableEq

/-- The validation block (train.py lines 244-271): run `_test_model` on the
`valid` split, read the *first* metric as the improvement signal, either
reset patience / update `best` / `save()` or increment patience, emit the
valid report, then decide the patience break
(`patience >= validation_patience > 0`). -/
def validStep {X Y M : Type} (cfg : TrainConfig) (fns : MetricFns Y)
    (env : Env X Y M) (impr : ℚ → PyExt → Bool) (st : LoopState Y M) :
    Except LoopErr (LoopState Y M × Bool) :=
  let p := testModel env.inferS fns (env.validGen cfg.batchSize) st.model
  match p.2.metrics with
  | [] => .error .indexError
  | (_, score) :: _ =>
    let st1 := { st with model := p.1 }
    let st2 :=
      if impr score st1.best then
        { st1 with patience := 0, best := .fin score
                   saves := st1.saves + 1, saved := true }
      else
        { st1 with patience := st1.patience + 1 }
    let vr : ValidReport :=
      { base := p.2
        impatience := st2.patience
        patienceLimit :=
          if 0 < cfg.validationPatience then some cfg.validationPatience
          else none }
    let st3 := { st2 with reports := st2.reports ++ [Report.valid vr] }
    .ok (st3, decide (cfg.validationPatience ≤ st3.patience ∧ 0 < cfg.validationPatience))

/-- How one `while True` iteration ended. -/
inductive StopReason where
  | patience
  | epochLimit
  | interrupt
deriving DecidableEq

/-- One iteration of the outer `while True` loop (train.py lines 212-274):
the full pass over the train split, `epochs += 1`, the validation block when
`val_every_n_epochs` divides the epoch count, and the two break checks in
source order (patience first, then `epochs >= train_config['epochs'] > 0`). -/
def epochStep {X Y M : Type} (cfg : TrainConfig) (fns : MetricFns Y)
    (env : Env X Y M) (impr : ℚ → PyExt → Bool) (st : LoopState Y M) :
    Except LoopErr (LoopState Y M × Option StopReason) :=
  let st1 := (env.trainGen cfg.batchSize st.epochs).foldl (batchStep cfg fns env) st
  let st2 := { st1 with epochs := st1.epochs + 1 }
  let afterVal : Except LoopErr (LoopState Y M × Bool) :=
    if 0 < cfg.valEveryNEpochs ∧ st2.epochs % cfg.valEveryNEpochs = 0 then
      validStep cfg fns env impr st2
    else .ok (st2, false)
  match afterVal with
  | .error e => .error e
  | .ok (st3, brk) =>
    if brk then .ok (st3, some .patience)
    else if cfg.epochs ≤ st3.epochs ∧ 0 < cfg.epochs then .ok (st3, some .epochLimit)
    else .ok (st3, none)

/-- Result of running the `while True` loop for a bounded number of
iterations. -/
inductive LoopOutcome (Y M : Type) where
  | stopped (st : LoopState Y M) (r : StopReason)
  | crashed (st : LoopState Y M)
  | running (st : LoopState Y M)
deriving DecidableEq

/-- The `while True` loop with the `KeyboardInterrupt` observation point at
the top of each iteration; `fuel` bounds the number of iterations. -/
def runLoop {X Y M : Type} (cfg : TrainConfig) (fns : MetricFns Y)
    (env : Env X Y M) (impr : ℚ → PyExt → Bool) :
    LoopState Y M → Nat → LoopOutcome Y M
  | st, 0 => .running st
  | st, Nat.succ fuel =>
    if env.interruptAt = some st.epochs then .stopped st .interrupt
    else
      match epochStep cfg fns env impr st with
      | .error _ => .crashed st
      | .ok (st', some r) => .stopped st' r
      | .ok (st', none) => runLoop cfg fns env impr st' fuel

/-- The fatal error `_train_batches` raises during setup. -/
inductive TrainErr where
  | configError
deriving DecidableEq

/-- The `if not saved: model.save()` epilogue (train.py lines 278-280):
runs after a clean or interrupted stop, but not after an uncaught
exception. -/
def finalSave {Y M : Type} : LoopOutcome Y M → LoopOutcome Y M
  | .stopped st r =>
    .stopped (if st.saved then st else { st with saves := st.saves + 1 }) r
  | o => o

/-- The locals of `_train_batches` just before the `while True` loop
(train.py lines 202-209). -/
def initState {X Y M : Type} (env : Env X Y M) (b0 : PyExt) : LoopState Y M :=
  { model := env.m0, i := 0, epochs := 0, examples := 0
    saved := false, saves := 0, patience := 0, best := b0
    trainYTrue := [], trainYPred := [], reports := [] }

/-- Embedding of `_train_batches` (train.py lines 170-281): merge the config
with the defaults, derive the improvement predicate (raising `ConfigError`
for an invalid `metric_optimization` before any batch is drawn), run the
loop, and apply the final-save epilogue. -/
def trainBatchesRun {X Y M : Type} (u : UserTrainConfig) (fns : MetricFns Y)
    (env : Env X Y M) (fuel : Nat) : Except TrainErr (LoopOutcome Y M) :=
  let cfg := mergeDefaults u
  match setupOpt cfg.metricOptimization with
  | none => .error .configError
  | some ib => .ok (finalSave (runLoop cfg fns env ib.1 (initState env ib.2) fuel))

/-- The capabilities `train_experimental` probes on the model
(`callable(getattr(model, 'train_on_batch', None))`, same for `fit`). -/
structure ModelCaps where
  hasTrainOnBatch : Bool
  hasFit : Bool
deriving DecidableEq

/-- Externally visible actions of `train_experimental`'s dispatch and
post-training reporting (train.py lines 120-145). -/
inductive TEAction where
  | dispatchTrainBatches
  | fitCalled
  | saveCalled
  | legacyTrain
  | validReport (batchSize : Int)
  | testReport (batchSize : Int)
deriving DecidableEq

/-- `train_config.get('batch_size', -1)` (train.py lines 135 and 142): the
batch size handed to `_test_model` for the best-model evaluations. -/
def evalBatchSize (u : UserTrainConfig) : Int := u.batchSize.getD (-1)

/-- The post-training `validate_best` / `test_best` reports (train.py lines
129-145); both flags default to `True` in the base config of
`train_experimental`. -/
def postReports (u : UserTrainConfig) : List TEAction :=
  (if u.validateBest.getD true then [TEAction.validReport (evalBatchSize u)] else []) ++
  (if u.testBest.getD true then [TEAction.testReport (evalBatchSize u)] else [])

/-- The strategy dispatch of `train_experimental` (train.py lines 120-145):
`train_on_batch` wins, then `fit` (which is `_fit`: `fit` then `save`,
lines 78-81), else the legacy `model.train(dataset)` call followed by an
immediate `return` that skips all post-training reporting. -/
def trainExperimental (caps : ModelCaps) (u : UserTrainConfig) : List TEAction :=
  if caps.hasTrainOnBatch then TEAction.dispatchTrainBatches :: postReports u
  else if caps.hasFit then TEAction.fitCalled :: TEAction.saveCalled :: postReports u
  else [TEAction.legacyTrain]

/-- Modelled from the spec: `Dataset.batch_generator` is not part of the
given sources; per §6, `batchSize = -1` is "a reserved sentinel meaning one
batch containing the entire split". -/
def batchGeneratorWhole {X Y : Type} (xs : List X) (ys : List Y) :
    List (Batch X Y) := [(xs, ys)]

/-! Mirrors of the loop's state evolution, used to phrase run-level claims:
the model after a full batch pass, the model at the top of each `while`
iteration, and the validation score the loop would read at the end of an
epoch.  They are assembled from the same building blocks as the loop
itself. -/

/-- Model-state evolution of one full pass over a batch list, as performed
by `batchStep`: the interim `infer` call (present only when logging is on)
followed by `train_on_batch`. -/
def modelBatchPass {X Y M : Type} (cfg : TrainConfig) (env : Env X Y M)
    (m : M) (bs : List (Batch X Y)) : M :=
  bs.foldl
    (fun m b =>
      let m1 := if 0 < cfg.logEveryNBatches then (env.inferS m b.1).1 else m
      env.trainOnBatch m1 b) m

/-- The model state at the top of `while` iteration `n` (i.e. after `n`
completed epochs, including the `infer` threading of any validation runs). -/
def modelAt {X Y M : Type} (cfg : TrainConfig) (fns : MetricFns Y)
    (env : Env X Y M) : Nat → M
  | 0 => env.m0
  | n + 1 =>
    let m1 := modelBatchPass cfg env (modelAt cfg fns env n) (env.trainGen cfg.batchSize n)
    if 0 < cfg.valEveryNEpochs ∧ (n + 1) % cfg.valEveryNEpochs = 0 then
      (testModel env.inferS fns (env.validGen cfg.batchSize) m1).1
    else m1

/-- The model state right after the batch pass of epoch `n + 1` (before any
validation of that epoch). -/
def preValModel {X Y M : Type} (cfg : TrainConfig) (fns : MetricFns Y)
    (env : Env X Y M) (n : Nat) : M :=
  modelBatchPass cfg env (modelAt cfg fns env n) (env.trainGen cfg.batchSize n)

/-- The scalar driving the improvement decision if validation runs at the
end of epoch `n + 1`: the first configured metric of the `_test_model`
report (`metrics[0]`). -/
def scoreE {X Y M : Type} (cfg : TrainConfig) (fns : MetricFns Y)
    (env : Env X Y M) (n : Nat) : ℚ :=
  (((testModel env.inferS fns (env.validGen cfg.batchSize)
      (preValModel cfg fns env n)).2.metrics).headD ("", 0)).2

/-! Window bookkeeping for the interim-logging claim. -/

/-- One step of a logging-on batch pass: `infer` on the batch inputs first
(collecting the predictions), then `train_on_batch`. -/
def runPredsF {X Y M : Type} (env : Env X Y M) :
    M × List Y → Batch X Y → M × List Y :=
  fun acc b =>
    let p := env.inferS acc.1 b.1
    (env.trainOnBatch p.1 b, acc.2 ++ p.2)

/-- Model threading and concatenated predictions of a batch pass with
logging on: per batch, `infer` first, then `train_on_batch`. -/
def runPreds {X Y M : Type} (env : Env X Y M) (m : M) (bs : List (Batch X Y)) :
    M × List Y :=
  bs.foldl (runPredsF env) (m, ([] : List Y))

/-- All labels of a batch list, concatenated in order. -/
def labelsOf {X Y : Type} (bs : List (Batch X Y)) : List Y :=
  (bs.map Prod.snd).flatten

/-- Total input count of a batch list (`examples` advances by `len(x)`). -/
def xLen {X Y : Type} (bs : List (Batch X Y)) : Nat :=
  (bs.map (fun b => b.1.length)).sum

/-- The interim train report the loop emits at the `j`-th flush (0-based)
while processing the batch list `bs` from a fresh window: its window is the
`j`-th chunk of `cfg.logEveryNBatches` batches, its predictions come from
the model state threaded up to that chunk, and its metrics are computed over
exactly that window. -/
def expTrainReport {X Y M : Type} (cfg : TrainConfig) (fns : MetricFns Y)
    (env : Env X Y M) (e i0 ex0 : Nat) (m0 : M) (bs : List (Batch X Y))
    (j : Nat) : TrainReport Y :=
  let N := cfg.logEveryNBatches
  let win := (bs.drop (j * N)).take N
  let yT := labelsOf win
  let yP := (runPreds env (runPreds env m0 (bs.take (j * N))).1 win).2
  { epochsDone := e
    batchesSeen := i0 + (j + 1) * N
    examplesSeen := ex0 + xLen (bs.take ((j + 1) * N))
    yTrueWindow := yT
    yPredWindow := yP
    metrics := fns.map (fun nf => (nf.1, nf.2 yT yP)) }

/-! Concrete fixtures used to instantiate the claim theorems on concrete
runs. -/

/-- A trivial environment over `M = Unit`: inference echoes the inputs,
training is a no-op on the unit state, every epoch yields one batch. -/
def unitEnv : Env Nat Nat Unit :=
  { m0 := ()
    inferS := fun _ xs => ((), xs)
    trainOnBatch := fun _ _ => ()
    trainGen := fun _ _ => [([0], [0])]
    validGen := fun _ => [([5], [5])]
    interruptAt := none }

/-- A single constant metric. -/
def zeroFns : MetricFns Nat := [("zero", fun _ _ => 0)]

/-- The training split of spec §8 Scenario C: 25 batches of size 1. -/
def c5Batches : List (Batch Nat Nat) :=
  (List.range 25).map (fun k => ([k], [k]))

/-- Environment whose train split is the 25 size-1 batches of Scenario C. -/
def c5Env : Env Nat Nat Unit :=
  { m0 := ()
    inferS := fun _ xs => ((), xs)
    trainOnBatch := fun _ _ => ()
    trainGen := fun _ e => if e = 0 then c5Batches else []
    validGen := fun _ => []
    interruptAt := none }

/-- The loop state the interim-logging invariant describes after `w` full
log windows and `t` further batches of the list `bs`, processed from a
fresh-window state `st0`: counters advanced, the model threaded through
`infer`+`train_on_batch` over the processed prefix, the window accumulators
holding exactly the labels/predictions since the last flush, and one interim
train report emitted per completed window. -/
def C5Inv {X Y M : Type} (cfg : TrainConfig) (fns : MetricFns Y)
    (env : Env X Y M) (st0 : LoopState Y M) (bs : List (Batch X Y))
    (w t : Nat) (st : LoopState Y M) : Prop :=
  st.i = st0.i + (w * cfg.logEveryNBatches + t) ∧
  st.epochs = st0.epochs ∧
  st.examples = st0.examples + xLen (bs.take (w * cfg.logEveryNBatches + t)) ∧
  st.model = (runPreds env st0.model (bs.take (w * cfg.logEveryNBatches + t))).1 ∧
  st.trainYTrue = labelsOf ((bs.drop (w * cfg.logEveryNBatches)).take t) ∧
  st.trainYPred =
    (runPreds env (runPreds env st0.model (bs.take (w * cfg.logEveryNBatches))).1
      ((bs.drop (w * cfg.logEveryNBatches)).take t)).2 ∧
  st.reports = st0.reports ++ (List.range w).map
    (fun j => Report.train
      (expTrainReport cfg fns env st0.epochs st0.i st0.examples st0.model bs j))

/-- The merged configuration of spec §8 Scenario C: one epoch, an interim
log flush every 10 batches. -/
def c5Cfg : TrainConfig :=
  mergeDefaults { epochs := some 1, logEveryNBatches := some 10 }

/-- The terminal state of the one-epoch `unitEnv` run used to instantiate
the final-save claim. -/
def c1State : LoopState Nat Unit :=
  { model := (), i := 1, epochs := 1, examples := 1
    saved := false, saves := 1, patience := 0, best := .negInf
    trainYTrue := [], trainYPred := [], reports := [] }

/-- The bookkeeping relation between the `saved` flag and the number of
`model.save()` calls that the loop maintains. -/
def SavedInv {Y M : Type} (st : LoopState Y M) : Prop :=
  (st.saved = false → st.saves = 0) ∧ (st.saved = true → 1 ≤ st.saves)

/-! Theorems. -/

theorem batchStep_ctrl {X Y M : Type} (cfg : TrainConfig) (fns : MetricFns Y)
    (env : Env X Y M) (st : LoopState Y M) (b : Batch X Y) :
    (batchStep cfg fns env st b).epochs = st.epochs ∧
    (batchStep cfg fns env st b).patience = st.patience ∧
    (batchStep cfg fns env st b).best = st.best ∧
    (batchStep cfg fns env st b).saved = st.saved ∧
    (batchStep cfg fns env st b).saves = st.saves ∧
    (batchStep cfg fns env st b).model =
      env.trainOnBatch
        (if 0 < cfg.logEveryNBatches then (env.inferS st.model b.1).1 else st.model)
        b := by
  unfold batchStep
  dsimp only
  by_cases hP : 0 < cfg.logEveryNBatches
  · simp only [if_pos hP]
    split <;> simp
  · simp only [if_neg hP]
    split <;> simp

theorem foldBatch_ctrl {X Y M : Type} (cfg : TrainConfig) (fns : MetricFns Y)
    (env : Env X Y M) :
    ∀ (bs : List (Batch X Y)) (st : LoopState Y M),
      (bs.foldl (batchStep cfg fns env) st).epochs = st.epochs ∧
      (bs.foldl (batchStep cfg fns env) st).patience = st.patience ∧
      (bs.foldl (batchStep cfg fns env) st).best = st.best ∧
      (bs.foldl (batchStep cfg fns env) st).saved = st.saved ∧
      (bs.foldl (batchStep cfg fns env) st).saves = st.saves ∧
      (bs.foldl (batchStep cfg fns env) st).model = modelBatchPass cfg env st.model bs
  | [], st => by simp [modelBatchPass]
  | b :: bs, st => by
      obtain ⟨h1, h2, h3, h4, h5, h6⟩ :=
        foldBatch_ctrl cfg fns env bs (batchStep cfg fns env st b)
      obtain ⟨g1, g2, g3, g4, g5, g6⟩ := batchStep_ctrl cfg fns env st b
      rw [List.foldl_cons]
      refine ⟨by rw [h1, g1], by rw [h2, g2], by rw [h3, g3],
              by rw [h4, g4], by rw [h5, g5], ?_⟩
      rw [h6, g6]
      rfl

theorem testFold_len {X Y M : Type} (inferS : M → List X → M × List Y) :
    ∀ (bs : List (Batch X Y)) (acc : M × List Y × List Y),
      ((bs.foldl (testAccF inferS) acc).2.1).length
        = acc.2.1.length + (bs.map (fun b => b.2.length)).sum
  | [], acc => by simp
  | b :: bs, acc => by
      rw [List.foldl_cons, testFold_len inferS bs]
      simp [testAccF]
      omega

theorem testFold_model {X Y M : Type} (inferS : M → List X → M × List Y)
    (hpure : ∀ (m : M) (xs : List X), (inferS m xs).1 = m) :
    ∀ (bs : List (Batch X Y)) (acc : M × List Y × List Y),
      (bs.foldl (testAccF inferS) acc).1 = acc.1
  | [], _ => rfl
  | b :: bs, acc => by
      rw [List.foldl_cons, testFold_model inferS hpure bs]
      simp [testAccF, hpure]

theorem epochStep_noval {X Y M : Type} (cfg : TrainConfig) (fns : MetricFns Y)
    (env : Env X Y M) (impr : ℚ → PyExt → Bool) (st : LoopState Y M) (n : Nat)
    (hst : st.epochs = n)
    (hnv : ¬(0 < cfg.valEveryNEpochs ∧ (n + 1) % cfg.valEveryNEpochs = 0)) :
    ∃ st',
      epochStep cfg fns env impr st =
        .ok (st',
          if cfg.epochs ≤ n + 1 ∧ 0 < cfg.epochs then some .epochLimit else none) ∧
      st'.epochs = n + 1 ∧
      (st.model = modelAt cfg fns env n → st'.model = modelAt cfg fns env (n + 1)) ∧
      st'.patience = st.patience ∧ st'.best = st.best ∧
      st'.saved = st.saved ∧ st'.saves = st.saves := by
  obtain ⟨h1, h2, h3, h4, h5, h6⟩ :=
    foldBatch_ctrl cfg fns env (env.trainGen cfg.batchSize st.epochs) st
  unfold epochStep
  dsimp only
  have hE :
      ((env.trainGen cfg.batchSize st.epochs).foldl (batchStep cfg fns env) st).epochs
        = n := by rw [h1, hst]
  rw [hE]
  rw [if_neg hnv]
  dsimp only
  by_cases hstop : cfg.epochs ≤ n + 1 ∧ 0 < cfg.epochs
  · rw [if_pos hstop, if_pos hstop]
    refine ⟨_, rfl, rfl, ?_, h2, h3, h4, h5⟩
    intro hmodel
    show ((env.trainGen cfg.batchSize st.epochs).foldl (batchStep cfg fns env) st).model
        = modelAt cfg fns env (n + 1)
    rw [h6, hmodel, hst]
    show modelBatchPass cfg env (modelAt cfg fns env n) (env.trainGen cfg.batchSize n)
        = modelAt cfg fns env (n + 1)
    rw [modelAt]
    rw [if_neg hnv]
  · rw [if_neg hstop, if_neg hstop]
    refine ⟨_, rfl, rfl, ?_, h2, h3, h4, h5⟩
    intro hmodel
    show ((env.trainGen cfg.batchSize st.epochs).foldl (batchStep cfg fns env) st).model
        = modelAt cfg fns env (n + 1)
    rw [h6, hmodel, hst]
    show modelBatchPass cfg env (modelAt cfg fns env n) (env.trainGen cfg.batchSize n)
        = modelAt cfg fns env (n + 1)
    rw [modelAt]
    rw [if_neg hnv]

theorem validStep_cons {X Y M : Type} (cfg : TrainConfig)
    (nf : String × (List Y → List Y → ℚ)) (rest : MetricFns Y)
    (env : Env X Y M) (impr : ℚ → PyExt → Bool) (st : LoopState Y M) :
    validStep cfg (nf :: rest) env impr st =
      (let p := testModel env.inferS (nf :: rest) (env.validGen cfg.batchSize) st.model
       let score := (p.2.metrics.headD ("", 0)).2
       let st1 := { st with model := p.1 }
       let st2 :=
         if impr score st1.best then
           { st1 with patience := 0, best := .fin score
                      saves := st1.saves + 1, saved := true }
         else { st1 with patience := st1.patience + 1 }
       let vr : ValidReport :=
         { base := p.2
           impatience := st2.patience
           patienceLimit :=
             if 0 < cfg.validationPatience then some cfg.validationPatience
             else none }
       Except.ok ({ st2 with reports := st2.reports ++ [Report.valid vr] },
         decide (cfg.validationPatience ≤ st2.patience ∧ 0 < cfg.validationPatience))) :=
  rfl

theorem epochStep_val_nil {X Y M : Type} (cfg : TrainConfig) (env : Env X Y M)
    (impr : ℚ → PyExt → Bool) (st : LoopState Y M) (n : Nat)
    (hst : st.epochs = n) (hV : 0 < cfg.valEveryNEpochs)
    (hdvd : (n + 1) % cfg.valEveryNEpochs = 0) :
    epochStep cfg ([] : MetricFns Y) env impr st = .error .indexError := by
  obtain ⟨h1, -, -, -, -, -⟩ :=
    foldBatch_ctrl cfg ([] : MetricFns Y) env (env.trainGen cfg.batchSize st.epochs) st
  unfold epochStep
  dsimp only
  rw [h1, hst]
  rw [if_pos ⟨hV, hdvd⟩]
  rfl

theorem epochStep_val {X Y M : Type} (cfg : TrainConfig)
    (nf : String × (List Y → List Y → ℚ)) (rest : MetricFns Y)
    (env : Env X Y M) (impr : ℚ → PyExt → Bool) (st : LoopState Y M) (n : Nat)
    (hst : st.epochs = n) (hmodel : st.model = modelAt cfg (nf :: rest) env n)
    (hV : 0 < cfg.valEveryNEpochs) (hdvd : (n + 1) % cfg.valEveryNEpochs = 0) :
    ∃ st' stp,
      epochStep cfg (nf :: rest) env impr st = .ok (st', stp) ∧
      stp =
        (if cfg.validationPatience ≤ st'.patience ∧ 0 < cfg.validationPatience
         then some StopReason.patience
         else if cfg.epochs ≤ n + 1 ∧ 0 < cfg.epochs then some StopReason.epochLimit
         else none) ∧
      st'.epochs = n + 1 ∧
      st'.model = modelAt cfg (nf :: rest) env (n + 1) ∧
      (impr (scoreE cfg (nf :: rest) env n) st.best = true →
        st'.patience = 0 ∧ st'.best = .fin (scoreE cfg (nf :: rest) env n) ∧
        st'.saved = true ∧ st'.saves = st.saves + 1) ∧
      (impr (scoreE cfg (nf :: rest) env n) st.best = false →
        st'.patience = st.patience + 1 ∧ st'.best = st.best ∧
        st'.saved = st.saved ∧ st'.saves = st.saves) := by
  obtain ⟨h1, h2, h3, h4, h5, h6⟩ :=
    foldBatch_ctrl cfg (nf :: rest) env (env.trainGen cfg.batchSize st.epochs) st
  have hm :
      ((env.trainGen cfg.batchSize st.epochs).foldl
          (batchStep cfg (nf :: rest) env) st).model
        = preValModel cfg (nf :: rest) env n := by
    rw [h6, hmodel, hst]; rfl
  have hmodelAt :
      modelAt cfg (nf :: rest) env (n + 1)
        = (testModel env.inferS (nf :: rest) (env.validGen cfg.batchSize)
            (preValModel cfg (nf :: rest) env n)).1 := by
    rw [modelAt]
    rw [if_pos ⟨hV, hdvd⟩]
    rfl
  have hscore :
      (((testModel env.inferS (nf :: rest) (env.validGen cfg.batchSize)
          (preValModel cfg (nf :: rest) env n)).2.metrics).headD ("", 0)).2
        = scoreE cfg (nf :: rest) env n := rfl
  have hE :
      ((env.trainGen cfg.batchSize st.epochs).foldl
          (batchStep cfg (nf :: rest) env) st).epochs = n := by rw [h1, hst]
  unfold epochStep
  dsimp only
  rw [hE]
  rw [if_pos ⟨hV, hdvd⟩]
  rw [validStep_cons]
  dsimp only
  rw [hm, hscore, h2, h3, h4, h5]
  cases himp : impr (scoreE cfg (nf :: rest) env n) st.best
  · simp only [himp, Bool.false_eq_true, if_false, decide_eq_true_eq]
    by_cases hbrk :
        cfg.validationPatience ≤ st.patience + 1 ∧ 0 < cfg.validationPatience
    · rw [if_pos hbrk]
      refine ⟨_, _, rfl, ?_, rfl, hmodelAt.symm, by simp [himp],
             fun _ => ⟨rfl, rfl, rfl, rfl⟩⟩
      dsimp only
      rw [if_pos hbrk]
    · rw [if_neg hbrk]
      by_cases hE2 : cfg.epochs ≤ n + 1 ∧ 0 < cfg.epochs
      · rw [if_pos hE2]
        refine ⟨_, _, rfl, ?_, rfl, hmodelAt.symm, by simp [himp],
               fun _ => ⟨rfl, rfl, rfl, rfl⟩⟩
        dsimp only
        rw [if_neg hbrk, if_pos hE2]
      · rw [if_neg hE2]
        refine ⟨_, _, rfl, ?_, rfl, hmodelAt.symm, by simp [himp],
               fun _ => ⟨rfl, rfl, rfl, rfl⟩⟩
        dsimp only
        rw [if_neg hbrk, if_neg hE2]
  · simp only [himp, if_true, decide_eq_true_eq]
    by_cases hbrk : cfg.validationPatience ≤ 0 ∧ 0 < cfg.validationPatience
    · rw [if_pos hbrk]
      refine ⟨_, _, rfl, ?_, rfl, hmodelAt.symm,
             fun _ => ⟨rfl, rfl, rfl, rfl⟩, by simp [himp]⟩
      dsimp only
      rw [if_pos hbrk]
    · rw [if_neg hbrk]
      by_cases hE2 : cfg.epochs ≤ n + 1 ∧ 0 < cfg.epochs
      · rw [if_pos hE2]
        refine ⟨_, _, rfl, ?_, rfl, hmodelAt.symm,
               fun _ => ⟨rfl, rfl, rfl, rfl⟩, by simp [himp]⟩
        dsimp only
        rw [if_neg hbrk, if_pos hE2]
      · rw [if_neg hE2]
        refine ⟨_, _, rfl, ?_, rfl, hmodelAt.symm,
               fun _ => ⟨rfl, rfl, rfl, rfl⟩, by simp [himp]⟩
        dsimp only
        rw [if_neg hbrk, if_neg hE2]


theorem validStep_savedInv {X Y M : Type} (cfg : TrainConfig) (fns : MetricFns Y)
    (env : Env X Y M) (impr : ℚ → PyExt → Bool) (st st' : LoopState Y M)
    (brk : Bool) (hinv : SavedInv st)
    (h : validStep cfg fns env impr st = .ok (st', brk)) : SavedInv st' := by
  cases fns with
  | nil => exact absurd h (by simp [validStep, testModel])
  | cons nf rest =>
    rw [validStep_cons] at h
    dsimp only at h
    simp only [Except.ok.injEq, Prod.mk.injEq] at h
    obtain ⟨h1, -⟩ := h
    subst h1
    cases hc :
        impr ((testModel env.inferS (nf :: rest)
            (env.validGen cfg.batchSize) st.model).2.metrics.headD ("", 0)).2
          ({ st with
              model := (testModel env.inferS (nf :: rest)
                (env.validGen cfg.batchSize) st.model).1 }).best with
    | false =>
      simp only [hc, Bool.false_eq_true, if_false]
      exact ⟨fun hs => hinv.1 hs, fun hs => hinv.2 hs⟩
    | true =>
      simp only [hc, if_true]
      exact ⟨fun hs => by simp at hs, fun _ => Nat.le_add_left 1 _⟩

theorem epochStep_savedInv {X Y M : Type} (cfg : TrainConfig) (fns : MetricFns Y)
    (env : Env X Y M) (impr : ℚ → PyExt → Bool) (st st' : LoopState Y M)
    (r : Option StopReason) (hinv : SavedInv st)
    (h : epochStep cfg fns env impr st = .ok (st', r)) : SavedInv st' := by
  obtain ⟨-, -, -, h4, h5, -⟩ :=
    foldBatch_ctrl cfg fns env (env.trainGen cfg.batchSize st.epochs) st
  have hinv1 :
      SavedInv ({ (env.trainGen cfg.batchSize st.epochs).foldl
          (batchStep cfg fns env) st with
            epochs := ((env.trainGen cfg.batchSize st.epochs).foldl
              (batchStep cfg fns env) st).epochs + 1 } : LoopState Y M) := by
    refine ⟨fun hs => ?_, fun hs => ?_⟩
    · show ((env.trainGen cfg.batchSize st.epochs).foldl
          (batchStep cfg fns env) st).saves = 0
      rw [h5]
      exact hinv.1 (by rw [← h4]; exact hs)
    · show 1 ≤ ((env.trainGen cfg.batchSize st.epochs).foldl
          (batchStep cfg fns env) st).saves
      rw [h5]
      exact hinv.2 (by rw [← h4]; exact hs)
  unfold epochStep at h
  dsimp only at h
  by_cases hval :
      0 < cfg.valEveryNEpochs ∧
        (((env.trainGen cfg.batchSize st.epochs).foldl
          (batchStep cfg fns env) st).epochs + 1) % cfg.valEveryNEpochs = 0
  · rw [if_pos hval] at h
    cases hv : validStep cfg fns env impr
        ({ (env.trainGen cfg.batchSize st.epochs).foldl
            (batchStep cfg fns env) st with
              epochs := ((env.trainGen cfg.batchSize st.epochs).foldl
                (batchStep cfg fns env) st).epochs + 1 } : LoopState Y M) with
    | error e => rw [hv] at h; exact absurd h (by simp)
    | ok pair =>
      obtain ⟨stv, brk⟩ := pair
      rw [hv] at h
      dsimp only at h
      have hinvv := validStep_savedInv cfg fns env impr _ stv brk hinv1 hv
      cases brk with
      | true =>
        simp only [if_true, Except.ok.injEq, Prod.mk.injEq] at h
        obtain ⟨h1, -⟩ := h
        exact h1 ▸ hinvv
      | false =>
        simp only [Bool.false_eq_true, if_false] at h
        split at h <;>
          · simp only [Except.ok.injEq, Prod.mk.injEq] at h
            obtain ⟨h1, -⟩ := h
            exact h1 ▸ hinvv
  · rw [if_neg hval] at h
    dsimp only at h
    simp only [Bool.false_eq_true, if_false] at h
    split at h <;>
      · simp only [Except.ok.injEq, Prod.mk.injEq] at h
        obtain ⟨h1, -⟩ := h
        exact h1 ▸ hinv1

theorem runLoop_savedInv {X Y M : Type} (cfg : TrainConfig) (fns : MetricFns Y)
    (env : Env X Y M) (impr : ℚ → PyExt → Bool) :
    ∀ (fuel : Nat) (st st' : LoopState Y M) (r : StopReason),
      SavedInv st → runLoop cfg fns env impr st fuel = .stopped st' r →
      SavedInv st'
  | 0, st, st', r, hinv, h => by simp [runLoop] at h
  | fuel + 1, st, st', r, hinv, h => by
      rw [runLoop] at h
      by_cases hint : env.interruptAt = some st.epochs
      · rw [if_pos hint] at h
        simp only [LoopOutcome.stopped.injEq] at h
        obtain ⟨h1, -⟩ := h
        exact h1 ▸ hinv
      · rw [if_neg hint] at h
        cases he : epochStep cfg fns env impr st with
        | error e => rw [he] at h; simp at h
        | ok pair =>
          obtain ⟨st2, ro⟩ := pair
          rw [he] at h
          cases ro with
          | some rr =>
            simp only [LoopOutcome.stopped.injEq] at h
            obtain ⟨h1, -⟩ := h
            exact h1 ▸ epochStep_savedInv cfg fns env impr st st2 _ hinv he
          | none =>
            exact runLoop_savedInv cfg fns env impr fuel st2 st' r
              (epochStep_savedInv cfg fns env impr st st2 _ hinv he) h

/-- C1: on every termination of the training loop — patience exhaustion,
epoch limit, or an external interruption, which is caught at the loop
boundary and never re-raised — at least one `save()` has occurred when the
run returns, and if no checkpoint was saved during any validation epoch
(`saved` still false) then `save()` was called exactly once, by the final
`if not saved` epilogue. -/
theorem c1_final_save_guarantee :
    ∀ (X Y M : Type) (u : UserTrainConfig) (fns : MetricFns Y) (env : Env X Y M)
      (fuel : Nat) (st : LoopState Y M) (r : StopReason),
      trainBatchesRun u fns env fuel = .ok (.stopped st r) →
      1 ≤ st.saves ∧ (st.saved = false → st.saves = 1) := by
  intro X Y M u fns env fuel st r h
  unfold trainBatchesRun at h
  dsimp only at h
  cases hso : setupOpt (mergeDefaults u).metricOptimization with
  | none => rw [hso] at h; exact absurd h (by simp)
  | some ib =>
    rw [hso] at h
    dsimp only at h
    simp only [Except.ok.injEq] at h
    cases ho : runLoop (mergeDefaults u) fns env ib.1 (initState env ib.2) fuel with
    | crashed st0 => rw [ho] at h; simp [finalSave] at h
    | running st0 => rw [ho] at h; simp [finalSave] at h
    | stopped st0 r0 =>
      rw [ho] at h
      unfold finalSave at h
      simp only [LoopOutcome.stopped.injEq] at h
      obtain ⟨h1, -⟩ := h
      have hinv0 : SavedInv (initState env ib.2) :=
        ⟨fun _ => rfl, fun hc => by simp [initState] at hc⟩
      have hinv := runLoop_savedInv (mergeDefaults u) fns env ib.1 fuel
        (initState env ib.2) st0 r0 hinv0 ho
      by_cases hs : st0.saved = true
      · rw [if_pos hs] at h1
        subst h1
        exact ⟨hinv.2 hs, fun hf => absurd (hf ▸ hs) (by simp)⟩
      · have hs' : st0.saved = false := by
          revert hs; cases st0.saved <;> simp
        rw [if_neg (by rw [hs']; simp)] at h1
        subst h1
        refine ⟨Nat.le_add_left 1 _, fun _ => ?_⟩
        show st0.saves + 1 = 1
        rw [hinv.1 hs']

theorem c1_witness :
    1 ≤ c1State.saves ∧ (c1State.saved = false → c1State.saves = 1) :=
  c1_final_save_guarantee Nat Nat Unit { epochs := some 1 } zeroFns unitEnv 1
    c1State .epochLimit (by rfl)

theorem runLoop_steps {X Y M : Type} (cfg : TrainConfig) (fns : MetricFns Y)
    (env : Env X Y M) (impr : ℚ → PyExt → Bool)
    (Inv : Nat → LoopState Y M → Prop) (T : Nat)
    (hint : env.interruptAt = none)
    (hstep : ∀ n st, n < T → Inv n st →
      ∃ st', epochStep cfg fns env impr st = .ok (st', none) ∧ Inv (n + 1) st') :
    ∀ n, n ≤ T → ∀ st0, Inv 0 st0 →
      ∃ st, Inv n st ∧ ∀ fuel,
        runLoop cfg fns env impr st0 (n + fuel) = runLoop cfg fns env impr st fuel := by
  intro n
  induction n with
  | zero => exact fun _ st0 h0 => ⟨st0, h0, fun fuel => by rw [Nat.zero_add]⟩
  | succ n ih =>
    intro hn st0 h0
    obtain ⟨st, hInv, heq⟩ := ih (Nat.le_of_succ_le hn) st0 h0
    obtain ⟨st', hst', hInv'⟩ := hstep n st (Nat.lt_of_succ_le hn) hInv
    refine ⟨st', hInv', fun fuel => ?_⟩
    have h2 := heq (fuel + 1)
    rw [show n + (fuel + 1) = n + 1 + fuel by omega] at h2
    rw [h2]
    rw [runLoop]
    rw [hint]
    simp only [reduceCtorEq, if_false]
    rw [hst']

/-- C10: every validation epoch reads `metrics[0]`, the first configured
metric, to drive the improvement decision; with an empty `metrics_functions`
list a run that reaches its first validation epoch (`val_every_n_epochs > 0`
and no earlier epoch-limit stop or interrupt) fails on that indexing — the
`IndexError` is not caught, so the loop crashes during epoch
`val_every_n_epochs` instead of completing. -/
theorem c10_empty_metrics_crash :
    ∀ (X Y M : Type) (u : UserTrainConfig) (env : Env X Y M)
      (ib : (ℚ → PyExt → Bool) × PyExt),
      setupOpt (mergeDefaults u).metricOptimization = some ib →
      env.interruptAt = none →
      0 < (mergeDefaults u).valEveryNEpochs →
      ((mergeDefaults u).epochs = 0 ∨
        (mergeDefaults u).valEveryNEpochs ≤ (mergeDefaults u).epochs) →
      ∀ fuel : Nat, (mergeDefaults u).valEveryNEpochs ≤ fuel →
      ∃ st, trainBatchesRun u ([] : MetricFns Y) env fuel = .ok (.crashed st) ∧
            st.epochs = (mergeDefaults u).valEveryNEpochs - 1 := by
  intro X Y M u env ib hso hint hV hE fuel hfuel
  have hstep : ∀ n st, n < (mergeDefaults u).valEveryNEpochs - 1 →
      (fun n (st : LoopState Y M) => st.epochs = n) n st →
      ∃ st', epochStep (mergeDefaults u) ([] : MetricFns Y) env ib.1 st
          = .ok (st', none) ∧ st'.epochs = n + 1 := by
    intro n st hn hst
    have hnv : ¬(0 < (mergeDefaults u).valEveryNEpochs ∧
        (n + 1) % (mergeDefaults u).valEveryNEpochs = 0) := by
      rintro ⟨-, hmod⟩
      rw [Nat.mod_eq_of_lt (by omega)] at hmod
      omega
    obtain ⟨st', heq, he, -, -, -, -, -⟩ :=
      epochStep_noval (mergeDefaults u) ([] : MetricFns Y) env ib.1 st n hst hnv
    refine ⟨st', ?_, he⟩
    rw [heq, if_neg ?_]
    rcases hE with h0 | hge
    · rintro ⟨-, hpos⟩; omega
    · rintro ⟨hle, -⟩; omega
  obtain ⟨st, hste, heq⟩ :=
    runLoop_steps (mergeDefaults u) ([] : MetricFns Y) env ib.1
      (fun n st => st.epochs = n) ((mergeDefaults u).valEveryNEpochs - 1) hint hstep
      ((mergeDefaults u).valEveryNEpochs - 1) le_rfl (initState env ib.2) rfl
  have hcrash :=
    epochStep_val_nil (mergeDefaults u) env ib.1 st
      ((mergeDefaults u).valEveryNEpochs - 1) hste hV
      (by rw [Nat.sub_add_cancel hV]; exact Nat.mod_self _)
  refine ⟨st, ?_, hste⟩
  have hrun : runLoop (mergeDefaults u) ([] : MetricFns Y) env ib.1
      (initState env ib.2) fuel = .crashed st := by
    have h2 := heq (fuel - ((mergeDefaults u).valEveryNEpochs - 1))
    rw [show (mergeDefaults u).valEveryNEpochs - 1 +
        (fuel - ((mergeDefaults u).valEveryNEpochs - 1)) = fuel from by omega] at h2
    rw [h2]
    obtain ⟨k, hk⟩ :
        ∃ k, fuel - ((mergeDefaults u).valEveryNEpochs - 1) = k + 1 :=
      ⟨fuel - ((mergeDefaults u).valEveryNEpochs - 1) - 1, by omega⟩
    rw [hk, runLoop, hint]
    simp only [reduceCtorEq, if_false]
    rw [hcrash]
  unfold trainBatchesRun
  dsimp only
  rw [hso]
  dsimp only
  rw [hrun]
  rfl

theorem c10_witness :
    ∃ st : LoopState Nat Unit,
      trainBatchesRun { valEveryNEpochs := some 1 } ([] : MetricFns Nat)
          unitEnv 1 = .ok (.crashed st) ∧
      st.epochs = (mergeDefaults { valEveryNEpochs := some 1 }).valEveryNEpochs - 1 :=
  c10_empty_metrics_crash Nat Nat Unit { valEveryNEpochs := some 1 } unitEnv
    ((fun sc b => pyLt b (PyExt.fin sc)), PyExt.negInf) rfl rfl (by decide)
    (Or.inl rfl) 1 (by decide)

/-- C4: with `epochs = E > 0` and `validation_patience = 0` (and no external
interrupt; a nonempty metric list whenever validation runs, else the run
crashes per C10), every run — whatever the validation scores do — performs
exactly `E` full passes over the training split and stops via the
epoch-limit transition, which is checked after that epoch's validation
block (the patience break `patience >= 0 > 0` can never fire); at least one
checkpoint save occurs, and if no checkpoint was saved during any
validation epoch (`saved = false`, which in this code is exactly "no
validation ever improved", since `save()` runs precisely on improvement)
then exactly one save occurs, by the final-save epilogue at loop
termination. -/
theorem c4_epoch_limit_stop :
    ∀ (X Y M : Type) (u : UserTrainConfig) (fns : MetricFns Y) (env : Env X Y M)
      (ib : (ℚ → PyExt → Bool) × PyExt) (E : Nat),
      setupOpt (mergeDefaults u).metricOptimization = some ib →
      env.interruptAt = none →
      (mergeDefaults u).epochs = E → 0 < E →
      (mergeDefaults u).validationPatience = 0 →
      (0 < (mergeDefaults u).valEveryNEpochs → fns ≠ []) →
      ∀ fuel, E ≤ fuel →
      ∃ st, trainBatchesRun u fns env fuel = .ok (.stopped st .epochLimit) ∧
        st.epochs = E ∧ 1 ≤ st.saves ∧ (st.saved = false → st.saves = 1) := by
  intro X Y M u fns env ib E hso hint hE hEpos hP hfns fuel hfuel
  have hstepgen : ∀ n st, n + 1 ≤ E →
      (st.epochs = n ∧ st.model = modelAt (mergeDefaults u) fns env n) →
      ∃ st', epochStep (mergeDefaults u) fns env ib.1 st =
          .ok (st',
            if (mergeDefaults u).epochs ≤ n + 1 ∧ 0 < (mergeDefaults u).epochs
            then some StopReason.epochLimit else none) ∧
        (st'.epochs = n + 1 ∧
          st'.model = modelAt (mergeDefaults u) fns env (n + 1)) := by
    intro n st hn ⟨h1, h2⟩
    by_cases hval : 0 < (mergeDefaults u).valEveryNEpochs ∧
        (n + 1) % (mergeDefaults u).valEveryNEpochs = 0
    · cases hfc : fns with
      | nil => exact absurd hfc (hfns hval.1)
      | cons nf rest =>
        subst hfc
        obtain ⟨st', stp, heq, hstp, he, hm, -, -⟩ :=
          epochStep_val (mergeDefaults u) nf rest env ib.1 st n h1 h2
            hval.1 hval.2
        refine ⟨st', ?_, he, hm⟩
        rw [heq, hstp, if_neg (by rw [hP]; rintro ⟨-, hc⟩; omega)]
    · obtain ⟨st', heq, he, hmi, -, -, -, -⟩ :=
        epochStep_noval (mergeDefaults u) fns env ib.1 st n h1 hval
      exact ⟨st', heq, he, hmi h2⟩
  have hstep : ∀ n st, n < E - 1 →
      (fun n (st : LoopState Y M) => st.epochs = n ∧
        st.model = modelAt (mergeDefaults u) fns env n) n st →
      ∃ st', epochStep (mergeDefaults u) fns env ib.1 st = .ok (st', none) ∧
        (st'.epochs = n + 1 ∧
          st'.model = modelAt (mergeDefaults u) fns env (n + 1)) := by
    intro n st hn hInv
    obtain ⟨st', heq, hInv'⟩ := hstepgen n st (by omega) hInv
    refine ⟨st', ?_, hInv'⟩
    rw [heq, if_neg (by rw [hE]; rintro ⟨hc, -⟩; omega)]
  obtain ⟨st, hInvT, heq⟩ :=
    runLoop_steps (mergeDefaults u) fns env ib.1
      (fun n st => st.epochs = n ∧
        st.model = modelAt (mergeDefaults u) fns env n)
      (E - 1) hint hstep (E - 1) le_rfl (initState env ib.2) ⟨rfl, rfl⟩
  obtain ⟨st', heqF, hInvF⟩ := hstepgen (E - 1) st (by omega) hInvT
  rw [if_pos (by rw [hE]; omega)] at heqF
  have hrun : runLoop (mergeDefaults u) fns env ib.1 (initState env ib.2) fuel
      = .stopped st' .epochLimit := by
    have h2 := heq (fuel - (E - 1))
    rw [show E - 1 + (fuel - (E - 1)) = fuel from by omega] at h2
    rw [h2]
    obtain ⟨k, hk⟩ : ∃ k, fuel - (E - 1) = k + 1 := ⟨fuel - (E - 1) - 1, by omega⟩
    rw [hk, runLoop, hint]
    simp only [reduceCtorEq, if_false]
    rw [heqF]
  have hsinv : SavedInv st' :=
    runLoop_savedInv (mergeDefaults u) fns env ib.1 fuel
      (initState env ib.2) st' .epochLimit
      ⟨fun _ => rfl, fun hc => by simp [initState] at hc⟩ hrun
  have hepochs : st'.epochs = E := by rw [hInvF.1]; omega
  have hmain : trainBatchesRun u fns env fuel
      = .ok (finalSave (.stopped st' .epochLimit)) := by
    unfold trainBatchesRun
    dsimp only
    rw [hso]
    dsimp only
    rw [hrun]
  by_cases hs : st'.saved = true
  · refine ⟨st', ?_, hepochs, hsinv.2 hs, fun hf => absurd (hf ▸ hs) (by simp)⟩
    rw [hmain]
    unfold finalSave
    dsimp only
    rw [if_pos hs]
  · have hs' : st'.saved = false := by
      revert hs; cases st'.saved <;> simp
    refine ⟨{ st' with saves := st'.saves + 1 }, ?_, hepochs, ?_, fun _ => ?_⟩
    · rw [hmain]
      unfold finalSave
      dsimp only
      rw [if_neg (by rw [hs']; simp)]
    · exact Nat.le_add_left 1 _
    · show st'.saves + 1 = 1
      rw [hsinv.1 hs']

theorem c4_witness :
    ∃ st : LoopState Nat Unit,
      trainBatchesRun { epochs := some 2, validationPatience := some 0 }
          zeroFns unitEnv 2 = .ok (.stopped st .epochLimit) ∧
      st.epochs = 2 ∧ 1 ≤ st.saves ∧ (st.saved = false → st.saves = 1) :=
  c4_epoch_limit_stop Nat Nat Unit
    { epochs := some 2, validationPatience := some 0 } zeroFns unitEnv
    ((fun sc b => pyLt b (PyExt.fin sc)), PyExt.negInf) 2 rfl rfl rfl
    (by decide) rfl (fun hc => absurd hc (by decide)) 2 le_rfl

theorem div_mul_pred (V m : Nat) (hV : 0 < V) (hm : 0 < m) :
    (V * m - 1) / V = m - 1 := by
  have h : V * m - 1 = (V - 1) + V * (m - 1) := by
    cases m with
    | zero => omega
    | succ m' => simp [Nat.mul_succ]; omega
  rw [h, Nat.add_mul_div_left _ _ hV, Nat.div_eq_of_lt (by omega)]
  omega

/-- C2: with `validation_patience = P > 0`, `val_every_n_epochs = V > 0`,
unbounded epochs and no interrupt, a validation score sequence whose first
validation (at epoch `V`) improves and which never improves afterwards makes
the loop stop with the patience transition immediately after the validation
block of epoch `(P+1)·V` — exactly `P` consecutive non-improving validation
epochs after the improving one, without starting a new epoch — and a
checkpoint save occurred during validation, on or before that point
(`saved = true`, exactly one `save()`). -/
theorem c2_patience_stop :
    ∀ (X Y M : Type) (u : UserTrainConfig) (fns : MetricFns Y) (env : Env X Y M)
      (ib : (ℚ → PyExt → Bool) × PyExt) (P V : Nat),
      setupOpt (mergeDefaults u).metricOptimization = some ib →
      env.interruptAt = none →
      (mergeDefaults u).epochs = 0 →
      (mergeDefaults u).validationPatience = P → 0 < P →
      (mergeDefaults u).valEveryNEpochs = V → 0 < V →
      fns ≠ [] →
      ib.1 (scoreE (mergeDefaults u) fns env (V - 1)) ib.2 = true →
      (∀ n, (n + 1) % V = 0 → V < n + 1 →
        ib.1 (scoreE (mergeDefaults u) fns env n)
          (.fin (scoreE (mergeDefaults u) fns env (V - 1))) = false) →
      ∀ fuel, (P + 1) * V ≤ fuel →
      ∃ st, trainBatchesRun u fns env fuel = .ok (.stopped st .patience) ∧
        st.epochs = (P + 1) * V ∧ st.saved = true ∧ st.saves = 1 := by
  intro X Y M u fns env ib P V hso hint hE hPeq hPpos hVeq hVpos hfne himp1 hni fuel hfuel
  have hWpos : 0 < (P + 1) * V := Nat.mul_pos (by omega) hVpos
  have hVleW : V ≤ (P + 1) * V := by
    have h := Nat.mul_le_mul_right V (show 1 ≤ P + 1 by omega)
    rw [Nat.one_mul] at h
    exact h
  cases fns with
  | nil => exact absurd rfl hfne
  | cons nf rest =>
  have hstepgen : ∀ n st, n + 1 ≤ (P + 1) * V →
      (st.epochs = n ∧
        st.model = modelAt (mergeDefaults u) (nf :: rest) env n ∧
        ((n < V ∧ st.patience = 0 ∧ st.best = ib.2 ∧
            st.saved = false ∧ st.saves = 0) ∨
         (V ≤ n ∧ st.patience = n / V - 1 ∧
            st.best = PyExt.fin (scoreE (mergeDefaults u) (nf :: rest) env (V - 1)) ∧
            st.saved = true ∧ st.saves = 1))) →
      ∃ st', epochStep (mergeDefaults u) (nf :: rest) env ib.1 st =
          .ok (st',
            if n + 1 = (P + 1) * V then some StopReason.patience else none) ∧
        (st'.epochs = n + 1 ∧
          st'.model = modelAt (mergeDefaults u) (nf :: rest) env (n + 1) ∧
          ((n + 1 < V ∧ st'.patience = 0 ∧ st'.best = ib.2 ∧
              st'.saved = false ∧ st'.saves = 0) ∨
           (V ≤ n + 1 ∧ st'.patience = (n + 1) / V - 1 ∧
              st'.best = PyExt.fin (scoreE (mergeDefaults u) (nf :: rest) env (V - 1)) ∧
              st'.saved = true ∧ st'.saves = 1))) := by
    intro n st hn ⟨h1, h2, hphase⟩
    by_cases hval : (n + 1) % V = 0
    · obtain ⟨st', stp, heq, hstp, he, hm, htrue, hfalse⟩ :=
        epochStep_val (mergeDefaults u) nf rest env ib.1 st n h1 h2
          (by rw [hVeq]; exact hVpos) (by rw [hVeq]; exact hval)
      have hdvd : V ∣ (n + 1) := Nat.dvd_of_mod_eq_zero hval
      rcases hphase with ⟨hlt, hp0, hb0, hsa0, hsv0⟩ | ⟨hge, hpk, hbk, hsak, hsvk⟩
      · -- first validation epoch: n + 1 = V
        have hnV : n + 1 = V :=
          Nat.le_antisymm (by omega) (Nat.le_of_dvd (by omega) hdvd)
        have himp :
            ib.1 (scoreE (mergeDefaults u) (nf :: rest) env n) st.best = true := by
          rw [hb0, show n = V - 1 from by omega]
          exact himp1
        obtain ⟨hp', hb', hsa', hsv'⟩ := htrue himp
        have hne : ¬(n + 1 = (P + 1) * V) := by
          intro hc
          have h2V : V * 2 ≤ (P + 1) * V := by
            rw [Nat.mul_comm (P + 1) V]
            exact Nat.mul_le_mul_left V (by omega)
          omega
        refine ⟨st', ?_, he, hm,
          Or.inr ⟨by omega, ?_, ?_, hsa', by rw [hsv', hsv0]⟩⟩
        · rw [heq, hstp, hp']
          rw [if_neg (show ¬((mergeDefaults u).validationPatience ≤ 0 ∧
              0 < (mergeDefaults u).validationPatience) from by
            rw [hPeq]; rintro ⟨c1, -⟩; omega)]
          rw [if_neg (show ¬((mergeDefaults u).epochs ≤ n + 1 ∧
              0 < (mergeDefaults u).epochs) from by
            rw [hE]; rintro ⟨-, c⟩; omega)]
          rw [if_neg hne]
        · rw [hp', hnV, Nat.div_self hVpos]
        · rw [hb', show n = V - 1 from by omega]
      · -- a later validation epoch: n + 1 = V * m with m ≥ 2
        obtain ⟨m, hm'⟩ := hdvd
        have hm0 : 2 ≤ m := by
          rcases m with _ | _ | m'
          · rw [Nat.mul_zero] at hm'; omega
          · rw [Nat.mul_one] at hm'; omega
          · omega
        have hVlt : V < n + 1 := by
          have h2V : V * 2 ≤ V * m := Nat.mul_le_mul_left V hm0
          rw [← hm'] at h2V
          omega
        have himp :
            ib.1 (scoreE (mergeDefaults u) (nf :: rest) env n) st.best = false := by
          rw [hbk]; exact hni n hval hVlt
        obtain ⟨hp', hb', hsa', hsv'⟩ := hfalse himp
        have hndiv : n / V = m - 1 := by
          rw [show n = V * m - 1 from by omega]
          exact div_mul_pred V m hVpos (by omega)
        have hpat' : st'.patience = m - 1 := by
          rw [hp', hpk, hndiv]; omega
        have hdivn1 : (n + 1) / V = m := by
          rw [hm', Nat.mul_div_cancel_left m hVpos]
        by_cases hfin : n + 1 = (P + 1) * V
        · have hmP : m = P + 1 := by
            have hc : V * m = V * (P + 1) := by
              rw [← hm', hfin, Nat.mul_comm]
            exact Nat.eq_of_mul_eq_mul_left hVpos hc
          refine ⟨st', ?_, he, hm,
            Or.inr ⟨by omega, ?_, hb'.trans hbk, hsa'.trans hsak,
              hsv'.trans hsvk⟩⟩
          · rw [heq, hstp, hpat']
            rw [if_pos (show (mergeDefaults u).validationPatience ≤ m - 1 ∧
                0 < (mergeDefaults u).validationPatience from by
              rw [hPeq]; omega)]
            rw [if_pos hfin]
          · rw [hpat', hdivn1]
        · have hmlt : m < P + 1 := by
            rcases Nat.lt_or_ge m (P + 1) with h | h
            · exact h
            · exfalso
              have hc : m = P + 1 := by
                have h1' : V * m ≤ (P + 1) * V := by rw [← hm']; exact hn
                rw [Nat.mul_comm (P + 1) V] at h1'
                have := Nat.le_of_mul_le_mul_left h1' hVpos
                omega
              exact hfin (by rw [hm', hc, Nat.mul_comm])
          refine ⟨st', ?_, he, hm,
            Or.inr ⟨by omega, ?_, hb'.trans hbk, hsa'.trans hsak,
              hsv'.trans hsvk⟩⟩
          · rw [heq, hstp, hpat']
            rw [if_neg (show ¬((mergeDefaults u).validationPatience ≤ m - 1 ∧
                0 < (mergeDefaults u).validationPatience) from by
              rw [hPeq]; rintro ⟨c1, -⟩; omega)]
            rw [if_neg (show ¬((mergeDefaults u).epochs ≤ n + 1 ∧
                0 < (mergeDefaults u).epochs) from by
              rw [hE]; rintro ⟨-, c⟩; omega)]
            rw [if_neg hfin]
          · rw [hpat', hdivn1]
    · -- not a validation epoch
      have hnv : ¬(0 < (mergeDefaults u).valEveryNEpochs ∧
          (n + 1) % (mergeDefaults u).valEveryNEpochs = 0) := by
        rw [hVeq]; rintro ⟨-, hc⟩; exact hval hc
      obtain ⟨st', heq, he, hmi, hp', hb', hsa', hsv'⟩ :=
        epochStep_noval (mergeDefaults u) (nf :: rest) env ib.1 st n h1 hnv
      have hfinne : ¬(n + 1 = (P + 1) * V) := by
        intro hc
        apply hval
        rw [hc, Nat.mul_comm]
        exact Nat.mul_mod_right V (P + 1)
      refine ⟨st', ?_, he, hmi h2, ?_⟩
      · rw [heq]
        rw [if_neg (show ¬((mergeDefaults u).epochs ≤ n + 1 ∧
            0 < (mergeDefaults u).epochs) from by
          rw [hE]; rintro ⟨-, c⟩; omega)]
        rw [if_neg hfinne]
      · rcases hphase with ⟨hlt, hp0, hb0, hsa0, hsv0⟩ | ⟨hge, hpk, hbk, hsak, hsvk⟩
        · left
          refine ⟨?_, by rw [hp', hp0], by rw [hb', hb0],
            by rw [hsa', hsa0], by rw [hsv', hsv0]⟩
          rcases Nat.lt_or_ge (n + 1) V with h | h
          · exact h
          · exfalso
            rcases Nat.lt_or_ge V (n + 1) with h' | h'
            · omega
            · exact hval (by rw [show n + 1 = V from by omega]; exact Nat.mod_self V)
        · right
          refine ⟨by omega, ?_, by rw [hb', hbk], by rw [hsa', hsak],
            by rw [hsv', hsvk]⟩
          rw [hp', hpk]
          have hdd : (n + 1) / V = n / V := by
            rw [Nat.succ_div,
              if_neg (fun hd => hval (Nat.dvd_iff_mod_eq_zero.mp hd)), Nat.add_zero]
          rw [hdd]
  have hstep : ∀ n st, n < (P + 1) * V - 1 →
      (fun n (st : LoopState Y M) => st.epochs = n ∧
        st.model = modelAt (mergeDefaults u) (nf :: rest) env n ∧
        ((n < V ∧ st.patience = 0 ∧ st.best = ib.2 ∧
            st.saved = false ∧ st.saves = 0) ∨
         (V ≤ n ∧ st.patience = n / V - 1 ∧
            st.best = PyExt.fin (scoreE (mergeDefaults u) (nf :: rest) env (V - 1)) ∧
            st.saved = true ∧ st.saves = 1))) n st →
      ∃ st', epochStep (mergeDefaults u) (nf :: rest) env ib.1 st
          = .ok (st', none) ∧
        (st'.epochs = n + 1 ∧
          st'.model = modelAt (mergeDefaults u) (nf :: rest) env (n + 1) ∧
          ((n + 1 < V ∧ st'.patience = 0 ∧ st'.best = ib.2 ∧
              st'.saved = false ∧ st'.saves = 0) ∨
           (V ≤ n + 1 ∧ st'.patience = (n + 1) / V - 1 ∧
              st'.best = PyExt.fin (scoreE (mergeDefaults u) (nf :: rest) env (V - 1)) ∧
              st'.saved = true ∧ st'.saves = 1))) := by
    intro n st hn hInv
    obtain ⟨st', heq, hInv'⟩ := hstepgen n st (by omega) hInv
    refine ⟨st', ?_, hInv'⟩
    rw [heq, if_neg (by omega)]
  obtain ⟨st, hInvT, heq⟩ :=
    runLoop_steps (mergeDefaults u) (nf :: rest) env ib.1
      (fun n st => st.epochs = n ∧
        st.model = modelAt (mergeDefaults u) (nf :: rest) env n ∧
        ((n < V ∧ st.patience = 0 ∧ st.best = ib.2 ∧
            st.saved = false ∧ st.saves = 0) ∨
         (V ≤ n ∧ st.patience = n / V - 1 ∧
            st.best = PyExt.fin (scoreE (mergeDefaults u) (nf :: rest) env (V - 1)) ∧
            st.saved = true ∧ st.saves = 1)))
      ((P + 1) * V - 1) hint hstep ((P + 1) * V - 1) le_rfl
      (initState env ib.2) ⟨rfl, rfl, Or.inl ⟨hVpos, rfl, rfl, rfl, rfl⟩⟩
  obtain ⟨st', heqF, hInvF⟩ := hstepgen ((P + 1) * V - 1) st (by omega) hInvT
  rw [if_pos (by omega)] at heqF
  obtain ⟨heF, -, hphF⟩ := hInvF
  have hphF' : st'.saved = true ∧ st'.saves = 1 := by
    rcases hphF with ⟨hc, -⟩ | ⟨-, -, -, hsa, hsv⟩
    · omega
    · exact ⟨hsa, hsv⟩
  have hrun : runLoop (mergeDefaults u) (nf :: rest) env ib.1
      (initState env ib.2) fuel = .stopped st' .patience := by
    have h2 := heq (fuel - ((P + 1) * V - 1))
    rw [show (P + 1) * V - 1 + (fuel - ((P + 1) * V - 1)) = fuel from by
      omega] at h2
    rw [h2]
    obtain ⟨k, hk⟩ : ∃ k, fuel - ((P + 1) * V - 1) = k + 1 :=
      ⟨fuel - ((P + 1) * V - 1) - 1, by omega⟩
    rw [hk, runLoop, hint]
    simp only [reduceCtorEq, if_false]
    rw [heqF]
  refine ⟨st', ?_, by rw [heF]; omega, hphF'.1, hphF'.2⟩
  unfold trainBatchesRun
  dsimp only
  rw [hso]
  dsimp only
  rw [hrun]
  unfold finalSave
  dsimp only
  rw [if_pos hphF'.1]

theorem c2_witness :
    ∃ st : LoopState Nat Unit,
      trainBatchesRun { validationPatience := some 1, valEveryNEpochs := some 1 }
          zeroFns unitEnv 2 = .ok (.stopped st .patience) ∧
      st.epochs = (1 + 1) * 1 ∧ st.saved = true ∧ st.saves = 1 :=
  c2_patience_stop Nat Nat Unit
    { validationPatience := some 1, valEveryNEpochs := some 1 } zeroFns unitEnv
    ((fun sc b => pyLt b (PyExt.fin sc)), PyExt.negInf) 1 1 rfl rfl rfl rfl
    (by decide) rfl (by decide) (List.cons_ne_nil _ _) rfl
    (fun n _ _ => rfl) 2 (by decide)

theorem runPredsFold {X Y M : Type} (env : Env X Y M) :
    ∀ (l : List (Batch X Y)) (m : M) (p : List Y),
      l.foldl (runPredsF env) (m, p)
        = ((runPreds env m l).1, p ++ (runPreds env m l).2)
  | [], m, p => by simp [runPreds]
  | b :: l, m, p => by
      simp only [List.foldl_cons, runPredsF, runPreds]
      rw [runPredsFold env l, runPredsFold env l]
      simp [List.append_assoc]

theorem runPreds_append {X Y M : Type} (env : Env X Y M) (m : M)
    (l1 l2 : List (Batch X Y)) :
    runPreds env m (l1 ++ l2)
      = ((runPreds env (runPreds env m l1).1 l2).1,
         (runPreds env m l1).2 ++ (runPreds env (runPreds env m l1).1 l2).2) := by
  show (l1 ++ l2).foldl (runPredsF env) (m, []) = _
  rw [List.foldl_append]
  rw [show l1.foldl (runPredsF env) (m, ([] : List Y))
      = ((runPreds env m l1).1, (runPreds env m l1).2) from rfl]
  exact runPredsFold env l2 _ _

theorem labelsOf_append {X Y : Type} (l1 l2 : List (Batch X Y)) :
    labelsOf (l1 ++ l2) = labelsOf l1 ++ labelsOf l2 := by
  simp [labelsOf]

theorem labelsOf_single {X Y : Type} (b : Batch X Y) :
    labelsOf [b] = b.2 := by
  simp [labelsOf]

theorem xLen_append {X Y : Type} (l1 l2 : List (Batch X Y)) :
    xLen (l1 ++ l2) = xLen l1 + xLen l2 := by
  simp [xLen]

theorem xLen_single {X Y : Type} (b : Batch X Y) :
    xLen [b] = b.1.length := by
  simp [xLen]

theorem mulAddMod (w s N : Nat) : (w * N + s) % N = s % N := by
  rw [Nat.add_comm, Nat.mul_comm, Nat.add_mul_mod_self_left]

theorem addMod (a c N : Nat) (h : a % N = 0) : (a + c) % N = c % N := by
  conv_lhs => rw [Nat.add_mod, h, Nat.zero_add]
  exact Nat.mod_mod_of_dvd c dvd_rfl

theorem chunk_unique (N a b c d : Nat) (hN : 0 < N) (hb : b < N) (hd : d < N)
    (h : a * N + b = c * N + d) : a = c ∧ b = d := by
  have ha : (a * N + b) / N = a := by
    rw [show a * N + b = b + N * a from by rw [Nat.mul_comm]; omega]
    rw [Nat.add_mul_div_left _ _ hN, Nat.div_eq_of_lt hb]
    omega
  have hc : (c * N + d) / N = c := by
    rw [show c * N + d = d + N * c from by rw [Nat.mul_comm]; omega]
    rw [Nat.add_mul_div_left _ _ hN, Nat.div_eq_of_lt hd]
    omega
  have hac : a = c := by rw [← ha, ← hc, h]
  refine ⟨hac, ?_⟩
  subst hac
  omega

theorem batchStep_log {X Y M : Type} (cfg : TrainConfig) (fns : MetricFns Y)
    (env : Env X Y M) (st : LoopState Y M) (b : Batch X Y)
    (hN : 0 < cfg.logEveryNBatches) :
    batchStep cfg fns env st b =
      (if (st.i + 1) % cfg.logEveryNBatches = 0 then
        { st with model := env.trainOnBatch (env.inferS st.model b.1).1 b
                  i := st.i + 1
                  examples := st.examples + b.1.length
                  trainYTrue := []
                  trainYPred := []
                  reports := st.reports ++ [Report.train
                    { epochsDone := st.epochs
                      batchesSeen := st.i + 1
                      examplesSeen := st.examples + b.1.length
                      yTrueWindow := st.trainYTrue ++ b.2
                      yPredWindow := st.trainYPred ++ (env.inferS st.model b.1).2
                      metrics := fns.map (fun nf =>
                        (nf.1, nf.2 (st.trainYTrue ++ b.2)
                          (st.trainYPred ++ (env.inferS st.model b.1).2))) }]
        }
      else
        { st with model := env.trainOnBatch (env.inferS st.model b.1).1 b
                  i := st.i + 1
                  examples := st.examples + b.1.length
                  trainYTrue := st.trainYTrue ++ b.2
                  trainYPred := st.trainYPred ++ (env.inferS st.model b.1).2 }) := by
  unfold batchStep
  dsimp only
  rw [if_pos hN]
  by_cases hf : (st.i + 1) % cfg.logEveryNBatches = 0
  · rw [if_pos ⟨hN, hf⟩, if_pos hf]
  · rw [if_neg (fun hc => hf hc.2), if_neg hf]

theorem c5_fold_aux {X Y M : Type} (cfg : TrainConfig) (fns : MetricFns Y)
    (env : Env X Y M) (st0 : LoopState Y M) (bs : List (Batch X Y))
    (hN : 0 < cfg.logEveryNBatches)
    (hi0 : st0.i % cfg.logEveryNBatches = 0) :
    ∀ (rem : List (Batch X Y)) (w t : Nat) (st : LoopState Y M),
      t < cfg.logEveryNBatches →
      rem = bs.drop (w * cfg.logEveryNBatches + t) →
      C5Inv cfg fns env st0 bs w t st →
      ∃ w' t', t' < cfg.logEveryNBatches ∧
        w' * cfg.logEveryNBatches + t'
          = w * cfg.logEveryNBatches + t + rem.length ∧
        C5Inv cfg fns env st0 bs w' t' (rem.foldl (batchStep cfg fns env) st)
  | [], w, t, st, ht, hrem, hInv => ⟨w, t, ht, by simp, hInv⟩
  | b :: rem', w, t, st, ht, hrem, hInv => by
    obtain ⟨hI, hEp, hX, hM, hT, hP, hR⟩ := hInv
    have hget : bs[w * cfg.logEveryNBatches + t]? = some b := by
      have h0 : (bs.drop (w * cfg.logEveryNBatches + t))[0]? = some b := by
        rw [← hrem]; simp
      rw [List.getElem?_drop] at h0
      simpa using h0
    have htake : bs.take (w * cfg.logEveryNBatches + t + 1)
        = bs.take (w * cfg.logEveryNBatches + t) ++ [b] := by
      rw [List.take_succ, hget]; rfl
    have hdrop : bs.drop (w * cfg.logEveryNBatches + t + 1) = rem' := by
      rw [← List.tail_drop, ← hrem]; rfl
    have hget2 : (bs.drop (w * cfg.logEveryNBatches))[t]? = some b := by
      rw [List.getElem?_drop]; exact hget
    have htake2 : (bs.drop (w * cfg.logEveryNBatches)).take (t + 1)
        = (bs.drop (w * cfg.logEveryNBatches)).take t ++ [b] := by
      rw [List.take_succ, hget2]; rfl
    have htadd : bs.take (w * cfg.logEveryNBatches + t)
        = bs.take (w * cfg.logEveryNBatches)
            ++ (bs.drop (w * cfg.logEveryNBatches)).take t :=
      List.take_add bs (w * cfg.logEveryNBatches) t
    have himod : (st.i + 1) % cfg.logEveryNBatches
        = (t + 1) % cfg.logEveryNBatches := by
      rw [hI]
      rw [show st0.i + (w * cfg.logEveryNBatches + t) + 1
          = st0.i + (w * cfg.logEveryNBatches + (t + 1)) from by omega]
      rw [addMod _ _ _ hi0, mulAddMod]
    have hmodel' : env.trainOnBatch (env.inferS st.model b.1).1 b
        = (runPreds env st0.model
            (bs.take (w * cfg.logEveryNBatches + t + 1))).1 := by
      rw [hM, htake, runPreds_append]
      rfl
    have hsm : st.model
        = (runPreds env
            (runPreds env st0.model (bs.take (w * cfg.logEveryNBatches))).1
            ((bs.drop (w * cfg.logEveryNBatches)).take t)).1 := by
      rw [hM, htadd, runPreds_append]
    have hpred' : st.trainYPred ++ (env.inferS st.model b.1).2
        = (runPreds env
            (runPreds env st0.model (bs.take (w * cfg.logEveryNBatches))).1
            ((bs.drop (w * cfg.logEveryNBatches)).take (t + 1))).2 := by
      rw [htake2, runPreds_append, hP]
      conv_lhs => rw [hsm]
      rfl
    have htrue' : st.trainYTrue ++ b.2
        = labelsOf ((bs.drop (w * cfg.logEveryNBatches)).take (t + 1)) := by
      rw [htake2, labelsOf_append, labelsOf_single, hT]
    have hex' : st.examples + b.1.length
        = st0.examples + xLen (bs.take (w * cfg.logEveryNBatches + t + 1)) := by
      rw [hX, htake, xLen_append, xLen_single]
      omega
    rw [List.foldl_cons, batchStep_log cfg fns env st b hN]
    by_cases hflush : t + 1 = cfg.logEveryNBatches
    · have hidx : w * cfg.logEveryNBatches + t + 1
          = (w + 1) * cfg.logEveryNBatches := by
        rw [Nat.succ_mul]; omega
      have hz : (st.i + 1) % cfg.logEveryNBatches = 0 := by
        rw [himod, hflush, Nat.mod_self]
      rw [if_pos hz]
      have hrep :
          ({ epochsDone := st.epochs
             batchesSeen := st.i + 1
             examplesSeen := st.examples + b.1.length
             yTrueWindow := st.trainYTrue ++ b.2
             yPredWindow := st.trainYPred ++ (env.inferS st.model b.1).2
             metrics := fns.map (fun nf =>
               (nf.1, nf.2 (st.trainYTrue ++ b.2)
                 (st.trainYPred ++ (env.inferS st.model b.1).2))) } : TrainReport Y)
            = expTrainReport cfg fns env st0.epochs st0.i st0.examples
                st0.model bs w := by
        have hbatches : st.i + 1 = st0.i + (w + 1) * cfg.logEveryNBatches := by
          rw [hI, Nat.succ_mul]; omega
        have hexw : st.examples + b.1.length
            = st0.examples + xLen (bs.take ((w + 1) * cfg.logEveryNBatches)) := by
          rw [hex', hidx]
        have htruew : st.trainYTrue ++ b.2
            = labelsOf ((bs.drop (w * cfg.logEveryNBatches)).take
                cfg.logEveryNBatches) := by
          rw [htrue', hflush]
        have hpredw : st.trainYPred ++ (env.inferS st.model b.1).2
            = (runPreds env
                (runPreds env st0.model (bs.take (w * cfg.logEveryNBatches))).1
                ((bs.drop (w * cfg.logEveryNBatches)).take
                  cfg.logEveryNBatches)).2 := by
          rw [hpred', hflush]
        rw [hEp, hbatches, hexw, htruew, hpredw]
        rfl
      obtain ⟨w', t', ht', hpos', hInv'⟩ :=
        c5_fold_aux cfg fns env st0 bs hN hi0 rem' (w + 1) 0
          ({ st with model := env.trainOnBatch (env.inferS st.model b.1).1 b
                     i := st.i + 1
                     examples := st.examples + b.1.length
                     trainYTrue := []
                     trainYPred := []
                     reports := st.reports ++ [Report.train
                       { epochsDone := st.epochs
                         batchesSeen := st.i + 1
                         examplesSeen := st.examples + b.1.length
                         yTrueWindow := st.trainYTrue ++ b.2
                         yPredWindow := st.trainYPred ++ (env.inferS st.model b.1).2
                         metrics := fns.map (fun nf =>
                           (nf.1, nf.2 (st.trainYTrue ++ b.2)
                             (st.trainYPred ++ (env.inferS st.model b.1).2))) }] })
          hN
          (by rw [Nat.add_zero, ← hidx]; exact hdrop.symm)
          (by
            refine ⟨?_, hEp, ?_, ?_, ?_, ?_, ?_⟩
            · show st.i + 1 = st0.i + ((w + 1) * cfg.logEveryNBatches + 0)
              rw [hI, Nat.succ_mul]; omega
            · show st.examples + b.1.length
                = st0.examples
                    + xLen (bs.take ((w + 1) * cfg.logEveryNBatches + 0))
              rw [Nat.add_zero, hex', hidx]
            · show env.trainOnBatch (env.inferS st.model b.1).1 b
                = (runPreds env st0.model
                    (bs.take ((w + 1) * cfg.logEveryNBatches + 0))).1
              rw [Nat.add_zero, hmodel', hidx]
            · show ([] : List Y) = labelsOf
                ((bs.drop ((w + 1) * cfg.logEveryNBatches)).take 0)
              simp [labelsOf]
            · show ([] : List Y) = (runPreds env
                (runPreds env st0.model
                  (bs.take ((w + 1) * cfg.logEveryNBatches))).1
                ((bs.drop ((w + 1) * cfg.logEveryNBatches)).take 0)).2
              simp [runPreds]
            · show st.reports ++ [Report.train _]
                = st0.reports ++ (List.range (w + 1)).map
                    (fun j => Report.train (expTrainReport cfg fns env st0.epochs
                      st0.i st0.examples st0.model bs j))
              rw [hR, List.range_succ, List.map_append, List.append_assoc]
              simp only [List.map_cons, List.map_nil]
              rw [hrep])
      refine ⟨w', t', ht', ?_, hInv'⟩
      rw [hpos', Nat.add_zero, ← hidx]
      simp only [List.length_cons]
      omega
    · have hlt : t + 1 < cfg.logEveryNBatches := by omega
      have hz : ¬((st.i + 1) % cfg.logEveryNBatches = 0) := by
        rw [himod, Nat.mod_eq_of_lt hlt]
        omega
      rw [if_neg hz]
      obtain ⟨w', t', ht', hpos', hInv'⟩ :=
        c5_fold_aux cfg fns env st0 bs hN hi0 rem' w (t + 1)
          ({ st with model := env.trainOnBatch (env.inferS st.model b.1).1 b
                     i := st.i + 1
                     examples := st.examples + b.1.length
                     trainYTrue := st.trainYTrue ++ b.2
                     trainYPred := st.trainYPred ++ (env.inferS st.model b.1).2 })
          hlt
          (by rw [show w * cfg.logEveryNBatches + (t + 1)
                = w * cfg.logEveryNBatches + t + 1 from by omega]
              exact hdrop.symm)
          (by
            refine ⟨?_, hEp, ?_, ?_, htrue', hpred', hR⟩
            · show st.i + 1 = st0.i + (w * cfg.logEveryNBatches + (t + 1))
              rw [hI]; omega
            · show st.examples + b.1.length
                = st0.examples
                    + xLen (bs.take (w * cfg.logEveryNBatches + (t + 1)))
              rw [show w * cfg.logEveryNBatches + (t + 1)
                = w * cfg.logEveryNBatches + t + 1 from by omega]
              exact hex'
            · show env.trainOnBatch (env.inferS st.model b.1).1 b
                = (runPreds env st0.model
                    (bs.take (w * cfg.logEveryNBatches + (t + 1)))).1
              rw [show w * cfg.logEveryNBatches + (t + 1)
                = w * cfg.logEveryNBatches + t + 1 from by omega]
              exact hmodel')
      refine ⟨w', t', ht', ?_, hInv'⟩
      rw [hpos']
      simp only [List.length_cons]
      omega


/-- C5: with `log_every_n_batches = N > 0`, the batch pass of the training
loop emits an interim train report exactly at every batch whose cumulative
batch count is a multiple of `N` (one per completed window of `N` batches),
each report's window and metrics covering only the labels and predictions
accumulated since the previous flush, and both window accumulators are reset
to empty at each flush, so consecutive windows never overlap: after
processing a batch list of length `W·N + r` (`r < N`) from a fresh-window
state, the emitted reports are exactly `expTrainReport` for windows
`0..W-1`, and the accumulators hold exactly the trailing `r` batches'
labels/predictions. -/
theorem c5_interim_window_law :
    ∀ (X Y M : Type) (cfg : TrainConfig) (fns : MetricFns Y) (env : Env X Y M)
      (st0 : LoopState Y M) (bs : List (Batch X Y)) (W r : Nat),
      0 < cfg.logEveryNBatches →
      st0.trainYTrue = [] → st0.trainYPred = [] →
      st0.i % cfg.logEveryNBatches = 0 →
      bs.length = W * cfg.logEveryNBatches + r → r < cfg.logEveryNBatches →
      ((bs.foldl (batchStep cfg fns env) st0).reports
          = st0.reports ++ (List.range W).map
              (fun j => Report.train (expTrainReport cfg fns env st0.epochs
                st0.i st0.examples st0.model bs j)) ∧
       (bs.foldl (batchStep cfg fns env) st0).trainYTrue
          = labelsOf ((bs.drop (W * cfg.logEveryNBatches)).take r) ∧
       (bs.foldl (batchStep cfg fns env) st0).trainYPred
          = (runPreds env (runPreds env st0.model
              (bs.take (W * cfg.logEveryNBatches))).1
              ((bs.drop (W * cfg.logEveryNBatches)).take r)).2 ∧
       (bs.foldl (batchStep cfg fns env) st0).i = st0.i + bs.length ∧
       (bs.foldl (batchStep cfg fns env) st0).examples
          = st0.examples + xLen bs) := by
  intro X Y M cfg fns env st0 bs W r hN h0t h0p hi0 hlen hr
  have hInv0 : C5Inv cfg fns env st0 bs 0 0 st0 := by
    refine ⟨by simp, rfl, by simp [xLen], by simp [runPreds], by
      simpa [labelsOf] using h0t, by simpa [runPreds] using h0p, by simp⟩
  obtain ⟨w', t', ht', hpos, hInvF⟩ :=
    c5_fold_aux cfg fns env st0 bs hN hi0 bs 0 0 st0 hN (by simp) hInv0
  have hpos' : w' * cfg.logEveryNBatches + t'
      = W * cfg.logEveryNBatches + r := by
    rw [hpos, ← hlen]
    simp
  obtain ⟨hw, ht''⟩ :=
    chunk_unique cfg.logEveryNBatches w' t' W r hN ht' hr hpos'
  subst hw
  subst ht''
  obtain ⟨hI, -, hX, -, hT, hP, hR⟩ := hInvF
  refine ⟨hR, hT, hP, ?_, ?_⟩
  · rw [hI, hlen]
  · rw [hX, ← hlen, List.take_length]

theorem c5_witness :
    ((c5Batches.foldl (batchStep c5Cfg zeroFns c5Env)
        (initState c5Env PyExt.negInf)).reports
        = (initState c5Env PyExt.negInf).reports ++ (List.range 2).map
            (fun j => Report.train (expTrainReport c5Cfg zeroFns c5Env
              (initState c5Env PyExt.negInf).epochs
              (initState c5Env PyExt.negInf).i
              (initState c5Env PyExt.negInf).examples
              (initState c5Env PyExt.negInf).model c5Batches j)) ∧
     (c5Batches.foldl (batchStep c5Cfg zeroFns c5Env)
        (initState c5Env PyExt.negInf)).trainYTrue
        = labelsOf ((c5Batches.drop (2 * c5Cfg.logEveryNBatches)).take 5) ∧
     (c5Batches.foldl (batchStep c5Cfg zeroFns c5Env)
        (initState c5Env PyExt.negInf)).trainYPred
        = (runPreds c5Env (runPreds c5Env (initState c5Env PyExt.negInf).model
            (c5Batches.take (2 * c5Cfg.logEveryNBatches))).1
            ((c5Batches.drop (2 * c5Cfg.logEveryNBatches)).take 5)).2 ∧
     (c5Batches.foldl (batchStep c5Cfg zeroFns c5Env)
        (initState c5Env PyExt.negInf)).i
        = (initState c5Env PyExt.negInf).i + c5Batches.length ∧
     (c5Batches.foldl (batchStep c5Cfg zeroFns c5Env)
        (initState c5Env PyExt.negInf)).examples
        = (initState c5Env PyExt.negInf).examples + xLen c5Batches) :=
  c5_interim_window_law Nat Nat Unit c5Cfg zeroFns c5Env
    (initState c5Env PyExt.negInf) c5Batches 2 5 (by decide) rfl rfl
    (by decide) (by decide) (by decide)

/-- C6: the `examples_seen` field reported by `_test_model` equals the total
number of labels accumulated over all batches drawn from the split, i.e. the
sum of the batch sizes; with the spec's `batchSize = -1` whole-split
generator it equals the split's total example count. -/
theorem c6_examples_seen_sum :
    ∀ (X Y M : Type) (inferS : M → List X → M × List Y) (fns : MetricFns Y)
      (bs : List (Batch X Y)) (m : M),
      ((testModel inferS fns bs m).2.examplesSeen
          = (bs.map (fun b => b.2.length)).sum) ∧
      ∀ (xs : List X) (ys : List Y),
        (testModel inferS fns (batchGeneratorWhole xs ys) m).2.examplesSeen
          = ys.length := by
  intro X Y M inferS fns bs m
  constructor
  · show ((bs.foldl (testAccF inferS) (m, [], [])).2.1).length = _
    rw [testFold_len]
    simp
  · intro xs ys
    show (((batchGeneratorWhole xs ys).foldl (testAccF inferS) (m, [], [])).2.1).length = _
    rw [testFold_len]
    simp [batchGeneratorWhole]

/-- C7: `_test_model` does not mutate the model — given the collaborator
contract that `infer` leaves the model state unchanged, the model it returns
is the one it was given — and it is idempotent: evaluating again from the
returned state yields the identical report (the `valid` batches are drawn
with `shuffle=False`, so the batch list is the same fixed sequence on both
calls). -/
theorem c7_evaluator_pure_idempotent :
    ∀ (X Y M : Type) (inferS : M → List X → M × List Y) (fns : MetricFns Y)
      (bs : List (Batch X Y)) (m : M),
      (∀ (m' : M) (xs : List X), (inferS m' xs).1 = m') →
      (testModel inferS fns bs m).1 = m ∧
      testModel inferS fns bs ((testModel inferS fns bs m).1)
        = testModel inferS fns bs m := by
  intro X Y M inferS fns bs m hpure
  have h1 : (testModel inferS fns bs m).1 = m := by
    show (bs.foldl (testAccF inferS) (m, [], [])).1 = m
    exact testFold_model inferS hpure bs _
  exact ⟨h1, by rw [h1]⟩

theorem c7_witness :
    (testModel unitEnv.inferS zeroFns [([1], [2])] ()).1 = () ∧
    testModel unitEnv.inferS zeroFns [([1], [2])]
        ((testModel unitEnv.inferS zeroFns [([1], [2])] ()).1)
      = testModel unitEnv.inferS zeroFns [([1], [2])] () :=
  c7_evaluator_pure_idempotent Nat Nat Unit unitEnv.inferS zeroFns
    [([1], [2])] () (fun _ _ => rfl)

/-- C3: `metric_optimization = 'maximize'` yields
`improved(score, best) = score > best` with initial `best = -∞`;
`'minimize'` yields `score < best` with initial `best = +∞`; any other value
makes `_train_batches` raise `ConfigError` during setup — the run returns
the error for every environment and every fuel bound, so no batch is drawn
and no model call is made. -/
theorem c3_metric_optimization_setup :
    (∃ f, setupOpt "maximize" = some (f, PyExt.negInf) ∧
       (∀ (s : ℚ) (b : PyExt), f s b = pyLt b (PyExt.fin s)) ∧
       (∀ (s p : ℚ), f s (PyExt.fin p) = decide (p < s)) ∧
       (∀ s : ℚ, f s PyExt.negInf = true)) ∧
    (∃ f, setupOpt "minimize" = some (f, PyExt.posInf) ∧
       (∀ (s : ℚ) (b : PyExt), f s b = pyLt (PyExt.fin s) b) ∧
       (∀ (s p : ℚ), f s (PyExt.fin p) = decide (s < p)) ∧
       (∀ s : ℚ, f s PyExt.posInf = true)) ∧
    (∀ (u : UserTrainConfig),
       (mergeDefaults u).metricOptimization ≠ "maximize" →
       (mergeDefaults u).metricOptimization ≠ "minimize" →
       ∀ (X Y M : Type) (fns : MetricFns Y) (env : Env X Y M) (fuel : Nat),
         trainBatchesRun u fns env fuel = Except.error TrainErr.configError) := by
  refine ⟨⟨_, rfl, fun s b => rfl, fun s p => rfl, fun s => rfl⟩,
          ⟨_, by simp [setupOpt], fun s b => rfl, fun s p => rfl, fun s => rfl⟩, ?_⟩
  intro u h1 h2 X Y M fns env fuel
  have hnone : setupOpt (mergeDefaults u).metricOptimization = none := by
    unfold setupOpt
    rw [if_neg h1, if_neg h2]
  unfold trainBatchesRun
  dsimp only
  rw [hnone]

theorem c3_witness :
    trainBatchesRun { metricOptimization := some "median" } zeroFns unitEnv 3
      = Except.error TrainErr.configError :=
  c3_metric_optimization_setup.2.2 { metricOptimization := some "median" }
    (by decide) (by decide) Nat Nat Unit zeroFns unitEnv 3

/-- C8: the strategy dispatch of `train_experimental` is exhaustive and
ordered — a callable `train_on_batch` wins and dispatches to the batch
loop; otherwise a callable `fit` is called once followed by `save()`;
otherwise the legacy `train(dataset)` call runs and the function returns
immediately, with no validate-best or test-best report in the legacy
case. -/
theorem c8_dispatch_order :
    ∀ (caps : ModelCaps) (u : UserTrainConfig),
      (caps.hasTrainOnBatch = true →
        trainExperimental caps u = TEAction.dispatchTrainBatches :: postReports u) ∧
      (caps.hasTrainOnBatch = false → caps.hasFit = true →
        trainExperimental caps u
          = TEAction.fitCalled :: TEAction.saveCalled :: postReports u) ∧
      (caps.hasTrainOnBatch = false → caps.hasFit = false →
        trainExperimental caps u = [TEAction.legacyTrain] ∧
        ∀ b : Int, TEAction.validReport b ∉ trainExperimental caps u ∧
                   TEAction.testReport b ∉ trainExperimental caps u) := by
  intro caps u
  obtain ⟨tob, fit⟩ := caps
  cases tob <;> cases fit <;> simp [trainExperimental]

theorem c8_witness :
    trainExperimental ⟨false, false⟩ {} = [TEAction.legacyTrain] ∧
    TEAction.validReport (-1) ∉ trainExperimental ⟨false, false⟩ {} :=
  ⟨((c8_dispatch_order ⟨false, false⟩ {}).2.2 rfl rfl).1,
   (((c8_dispatch_order ⟨false, false⟩ {}).2.2 rfl rfl).2 (-1)).1⟩

/-- C9: if the user configuration has no `batch_size` key, the post-training
best-model evaluations call `_test_model` with `batch_size = -1`
(`train_config.get('batch_size', -1)`), while `_train_batches` merges in a
default of `1`; the two agree exactly when the user sets `batch_size`
explicitly. -/
theorem c9_batch_size_defaults :
    ∀ u : UserTrainConfig,
      (u.batchSize = none →
        evalBatchSize u = -1 ∧ (mergeDefaults u).batchSize = 1 ∧
        evalBatchSize u ≠ (mergeDefaults u).batchSize) ∧
      (∀ b : Int, u.batchSize = some b →
        evalBatchSize u = b ∧ (mergeDefaults u).batchSize = b) := by
  intro u
  constructor
  · intro h
    refine ⟨?_, ?_, ?_⟩ <;> simp [evalBatchSize, mergeDefaults, h]
  · intro b h
    constructor <;> simp [evalBatchSize, mergeDefaults, h]

theorem c9_witness :
    (evalBatchSize {} = -1 ∧ (mergeDefaults {}).batchSize = 1 ∧
      evalBatchSize {} ≠ (mergeDefaults {}).batchSize) ∧
    (evalBatchSize { batchSize := some 7 } = 7 ∧
      (mergeDefaults { batchSize := some 7 }).batchSize = 7) :=
  ⟨(c9_batch_size_defaults {}).1 rfl,
   (c9_batch_size_defaults { batchSize := some 7 }).2 7 rfl⟩

end DPTrain
